import Mathlib

/-!
A shallow embedding of the FarmBuddy marketplace backend (`src/server.js`).

The server keeps three in-memory arrays — `users`, `products`, `orders` —
and serves synchronous Express handlers.  Each handler is embedded as a
pure function from the current state (plus its request parameters) to a
result and the next state.  JavaScript numbers are modelled as rationals
(`ℚ`); the randomly generated ids and tokens (`crypto.randomBytes`) are
passed in as explicit parameters.  Node runs the handlers one at a time
and every handler body here is synchronous, so an interleaved execution
of the server is exactly a sequence of these atomic state transitions;
the step relation `Step` below captures that execution model.
-/

/-- A registered user, `{id, name, type, token}` (line 46 of `server.js`);
`type` is `"farmer"` or `"buyer"`. -/
structure User where
  id : String
  name : String
  type : String
  token : String
  deriving DecidableEq

/-- A listing, `{id, farmerId, name, desc, price, quantity}` (line 47). -/
structure Product where
  id : String
  farmerId : String
  name : String
  desc : String
  price : ℚ
  quantity : ℚ
  deriving DecidableEq

/-- An order record, `{id, productId, buyerId, qty, date}` (line 48). -/
structure Order where
  id : String
  productId : String
  buyerId : String
  qty : ℚ
  date : String
  deriving DecidableEq

/-- The server's whole mutable state: the three arrays. -/
structure ServerState where
  users : List User
  products : List Product
  orders : List Order
  deriving DecidableEq

/-- Replace the first element satisfying `p` by its image under `f`
(JavaScript mutates the object returned by `Array.prototype.find`). -/
def updateFirst {α : Type} (p : α → Bool) (f : α → α) : List α → List α
  | [] => []
  | x :: xs => if p x then f x :: xs else x :: updateFirst p f xs

/-- The quantity already sold against product id `pid`:
`orders.filter(o => o.productId === pid).reduce((acc,o) => acc + o.qty, 0)`
(lines 124, 146, 194 of `server.js`). -/
def soldQty (orders : List Order) (pid : String) : ℚ :=
  (orders.filter (fun o => o.productId == pid)).foldl (fun acc o => acc + o.qty) 0

/-- Result of `POST /register` (lines 86-100). -/
inductive RegisterResult where
  | invalidData
  | duplicate
  | ok (u : User)
  deriving DecidableEq

/-- The `POST /register` handler: validate, reject a duplicate `(name, type)` pair,
otherwise append a fresh user (lines 86-100).  `newId`/`newToken` stand for
the values of `genId()`/`genToken()`. -/
def register (s : ServerState) (name ty newId newToken : String) :
    RegisterResult × ServerState :=
  if name = "" ∨ ty = "" ∨ (ty ≠ "farmer" ∧ ty ≠ "buyer") then
    (RegisterResult.invalidData, s)
  else if (s.users.find? (fun u => u.name == name && u.type == ty)).isSome then
    (RegisterResult.duplicate, s)
  else
    (RegisterResult.ok (User.mk newId name ty newToken),
     ServerState.mk (s.users ++ [User.mk newId name ty newToken]) s.products s.orders)

/-- Result of `POST /login` (lines 106-117). -/
inductive LoginResult where
  | invalidData
  | notFound
  | ok (u : User)
  deriving DecidableEq

/-- The assignment `user.token = genToken()` on the found user object (line 114). -/
def setToken (t : String) (u : User) : User :=
  User.mk u.id u.name u.type t

/-- The `POST /login` handler: validate, look up the exact `(name, type)` match,
refresh its token (lines 106-117). -/
def login (s : ServerState) (name ty newToken : String) :
    LoginResult × ServerState :=
  if name = "" ∨ ty = "" ∨ (ty ≠ "farmer" ∧ ty ≠ "buyer") then
    (LoginResult.invalidData, s)
  else
    match s.users.find? (fun u => u.name == name && u.type == ty) with
    | none => (LoginResult.notFound, s)
    | some u =>
        (LoginResult.ok (setToken newToken u),
         ServerState.mk
           (updateFirst (fun v => v.name == name && v.type == ty) (setToken newToken) s.users)
           s.products s.orders)

/-- The `authMiddleware` function (lines 71-81): `users.find(u => u.token === token)`;
`none` is the 401 `Unauthenticated` response. -/
def resolveToken (s : ServerState) (token : String) : Option User :=
  s.users.find? (fun u => u.token == token)

/-- The lookup `users.find(u => u.id === fid)`, defaulting to `'Unknown'`
(lines 128-131, 148-151). -/
def farmerNameOf (s : ServerState) (fid : String) : String :=
  match s.users.find? (fun u => u.id == fid) with
  | some u => u.name
  | none => "Unknown"

/-- One element of the `GET /products` response (lines 123-136). -/
structure ProductView where
  id : String
  farmerId : String
  farmerName : String
  name : String
  desc : String
  price : ℚ
  quantityAvailable : ℚ
  deriving DecidableEq

/-- The augmented record `GET /products` builds for one product
(lines 123-136). -/
def productView (s : ServerState) (p : Product) : ProductView :=
  ProductView.mk p.id p.farmerId (farmerNameOf s p.farmerId) p.name p.desc p.price
    (p.quantity - soldQty s.orders p.id)

/-- The `GET /products` handler (lines 121-139): map every product to its augmented
view, keep those with `quantityAvailable > 0`. -/
def listProducts (s : ServerState) : List ProductView :=
  (s.products.map (productView s)).filter (fun v => decide (0 < v.quantityAvailable))

/-- The `GET /products/:id` response (lines 142-154): the spread product
plus `farmerName` and `quantityAvailable`. -/
structure ProductDetail where
  id : String
  farmerId : String
  name : String
  desc : String
  price : ℚ
  quantity : ℚ
  farmerName : String
  quantityAvailable : ℚ
  deriving DecidableEq

/-- The `GET /products/:id` handler (lines 142-154); `none` is the 404. -/
def getProduct (s : ServerState) (pid : String) : Option ProductDetail :=
  (s.products.find? (fun p => p.id == pid)).map (fun p =>
    ProductDetail.mk p.id p.farmerId p.name p.desc p.price p.quantity
      (farmerNameOf s p.farmerId) (p.quantity - soldQty s.orders p.id))

/-- Result of `POST /products` (lines 158-177). -/
inductive CreateResult where
  | unauth
  | forbidden
  | invalidData
  | ok (p : Product)
  deriving DecidableEq

/-- The body of the `POST /products` handler once `authMiddleware` has
resolved `req.user` (lines 158-177). -/
def createProductAuthed (s : ServerState) (user : User) (name desc : String)
    (price quantity : ℚ) (newId : String) : CreateResult × ServerState :=
  if user.type ≠ "farmer" then (CreateResult.forbidden, s)
  else if name = "" ∨ price ≤ 0 ∨ quantity ≤ 0 then (CreateResult.invalidData, s)
  else
    (CreateResult.ok (Product.mk newId user.id name desc price quantity),
     ServerState.mk s.users (s.products ++ [Product.mk newId user.id name desc price quantity])
       s.orders)

/-- The `POST /products` handler (lines 158-177): `authMiddleware` then the handler. -/
def createProduct (s : ServerState) (token name desc : String)
    (price quantity : ℚ) (newId : String) : CreateResult × ServerState :=
  match resolveToken s token with
  | none => (CreateResult.unauth, s)
  | some u => createProductAuthed s u name desc price quantity newId

/-- Result of `POST /orders` (lines 182-209). -/
inductive OrderResult where
  | unauth
  | forbidden
  | invalidData
  | notFound
  | insufficient (requested available : ℚ)
  | ok (o : Order)
  deriving DecidableEq

/-- The body of the `POST /orders` handler once `authMiddleware` has
resolved `req.user` (lines 182-209): role check, input check, product
lookup, availability check, append. -/
def placeOrderAuthed (s : ServerState) (user : User) (productId : String)
    (qty : ℚ) (newId date : String) : OrderResult × ServerState :=
  if user.type ≠ "buyer" then (OrderResult.forbidden, s)
  else if productId = "" ∨ qty ≤ 0 then (OrderResult.invalidData, s)
  else
    match s.products.find? (fun p => p.id == productId) with
    | none => (OrderResult.notFound, s)
    | some product =>
        if product.quantity - soldQty s.orders productId < qty then
          (OrderResult.insufficient qty (product.quantity - soldQty s.orders productId), s)
        else
          (OrderResult.ok (Order.mk newId productId user.id qty date),
           ServerState.mk s.users s.products
             (s.orders ++ [Order.mk newId productId user.id qty date]))

/-- The `POST /orders` handler (lines 182-209): `authMiddleware` then the handler. -/
def placeOrder (s : ServerState) (token productId : String) (qty : ℚ)
    (newId date : String) : OrderResult × ServerState :=
  match resolveToken s token with
  | none => (OrderResult.unauth, s)
  | some u => placeOrderAuthed s u productId qty newId date

/-- One element of the buyer branch of `GET /orders` (lines 216-223). -/
structure BuyerOrderView where
  order : Order
  productName : String
  farmerId : Option String
  deriving DecidableEq

/-- One element of the farmer branch of `GET /orders` (lines 227-236). -/
structure FarmerOrderView where
  order : Order
  buyerName : String
  productName : String
  deriving DecidableEq

/-- Result of `GET /orders` (lines 213-242). -/
inductive OrdersResult where
  | unauth
  | unknownType
  | buyerOrders (l : List BuyerOrderView)
  | farmerOrders (l : List FarmerOrderView)
  deriving DecidableEq

/-- The body of the `GET /orders` handler once `authMiddleware` has
resolved `req.user` (lines 213-242). -/
def getOrdersAuthed (s : ServerState) (user : User) : OrdersResult :=
  if user.type = "buyer" then
    OrdersResult.buyerOrders
      ((s.orders.filter (fun o => o.buyerId == user.id)).map (fun o =>
        match s.products.find? (fun p => p.id == o.productId) with
        | some product => BuyerOrderView.mk o product.name (some product.farmerId)
        | none => BuyerOrderView.mk o "Unknown" none))
  else if user.type = "farmer" then
    OrdersResult.farmerOrders
      ((s.orders.filter (fun o =>
          ((s.products.filter (fun p => p.farmerId == user.id)).map (fun p => p.id)).contains
            o.productId)).map (fun o =>
        FarmerOrderView.mk o
          (match s.users.find? (fun u => u.id == o.buyerId) with
           | some buyer => buyer.name
           | none => "Unknown")
          (match s.products.find? (fun p => p.id == o.productId) with
           | some product => product.name
           | none => "Unknown")))
  else OrdersResult.unknownType

/-- The `GET /orders` handler (lines 213-242): `authMiddleware` then the handler. -/
def getOrders (s : ServerState) (token : String) : OrdersResult :=
  match resolveToken s token with
  | none => OrdersResult.unauth
  | some u => getOrdersAuthed s u

/-- One value of the `trendData` dictionary of `GET /market-trends`
(lines 246-269). -/
structure TrendEntry where
  totalPrice : ℚ
  count : ℕ
  avgPrice : ℚ
  totalSalesQty : ℚ
  deriving DecidableEq

/-- The `trendData` dictionary, keyed by product name, in insertion
order (a JavaScript object with string keys). -/
abbrev TrendData := List (String × TrendEntry)

/-- The lookup `trendData[k]` (`none` when the key is absent). -/
def tdGet (td : TrendData) (k : String) : Option TrendEntry :=
  (td.find? (fun kv => kv.1 == k)).map (fun kv => kv.2)

/-- One iteration of the first `products.forEach` pass (lines 248-254):
initialise the key if absent, then `totalPrice += p.price; count++`. -/
def trendStep1 (td : TrendData) (p : Product) : TrendData :=
  updateFirst (fun kv => kv.1 == p.name)
    (fun kv => (kv.1, TrendEntry.mk (kv.2.totalPrice + p.price) (kv.2.count + 1)
      kv.2.avgPrice kv.2.totalSalesQty))
    (if (tdGet td p.name).isSome then td else td ++ [(p.name, TrendEntry.mk 0 0 0 0)])

/-- The `for(let key in trendData)` pass (lines 256-259):
`avgPrice = totalPrice / count; totalSalesQty = 0`. -/
def trendPass2 (td : TrendData) : TrendData :=
  td.map (fun kv =>
    (kv.1, TrendEntry.mk kv.2.totalPrice kv.2.count (kv.2.totalPrice / (kv.2.count : ℚ)) 0))

/-- One iteration of the `orders.forEach` pass (lines 261-266): join the
order to its product and add `order.qty` to that name's `totalSalesQty`. -/
def trendStep3 (s : ServerState) (td : TrendData) (o : Order) : TrendData :=
  match s.products.find? (fun p => p.id == o.productId) with
  | none => td
  | some product =>
      if (tdGet td product.name).isSome then
        updateFirst (fun kv => kv.1 == product.name)
          (fun kv => (kv.1, TrendEntry.mk kv.2.totalPrice kv.2.count kv.2.avgPrice
            (kv.2.totalSalesQty + o.qty))) td
      else td

/-- The `GET /market-trends` handler (lines 246-269): the three passes in order. -/
def computeTrends (s : ServerState) : TrendData :=
  s.orders.foldl (trendStep3 s) (trendPass2 (s.products.foldl trendStep1 []))

/-- The unit prices of all listing rows named `name` (the spec's grouping
of listings by name). -/
def pricesOf (products : List Product) (name : String) : List ℚ :=
  (products.filter (fun p => p.name == name)).map (fun p => p.price)

/-- Whether order `o` joins (through its product) to the listing name
`name`, as lines 261-266 do. -/
def orderJoinsName (s : ServerState) (o : Order) (name : String) : Bool :=
  match s.products.find? (fun p => p.id == o.productId) with
  | some p => p.name == name
  | none => false

/-- The total quantity ordered, among `os`, against products named
`name` (joining each order to its product as lines 261-266 do). -/
def orderedQtyAmong (s : ServerState) (os : List Order) (name : String) : ℚ :=
  ((os.filter (fun o => orderJoinsName s o name)).map (fun o => o.qty)).sum

/-- What the first `products.forEach` pass accumulates for a name: the
sum and the count of the unit prices of the listing rows so named. -/
def pass1Entry (products : List Product) (k : String) : Option TrendEntry :=
  if pricesOf products k = [] then none
  else some (TrendEntry.mk (pricesOf products k).sum (pricesOf products k).length 0 0)

/-- One atomic handler execution.  Node serves requests on a single
thread and every mutating handler of `server.js` is synchronous, so each
runs to completion before the next starts; `hfresh` models the spec's
§4.1 requirement that generated ids are collision-free. -/
inductive Step : ServerState → ServerState → Prop where
  | registerStep (s : ServerState) (name ty nid ntok : String) :
      Step s (register s name ty nid ntok).2
  | loginStep (s : ServerState) (name ty ntok : String) :
      Step s (login s name ty ntok).2
  | createProductStep (s : ServerState) (tok name desc : String)
      (price quantity : ℚ) (nid : String)
      (hfresh : ∀ p ∈ s.products, p.id ≠ nid) :
      Step s (createProduct s tok name desc price quantity nid).2
  | placeOrderStep (s : ServerState) (tok pid : String) (qty : ℚ) (nid date : String) :
      Step s (placeOrder s tok pid qty nid date).2

/-- States reachable from the empty data files by any sequence of
handler executions (the read-only handlers do not change the state). -/
inductive Reachable : ServerState → Prop where
  | init : Reachable (ServerState.mk [] [] [])
  | step {s s2 : ServerState} : Reachable s → Step s s2 → Reachable s2

/-- The ledger/catalog invariant maintained by every handler: every
order references a product, product ids are distinct, and no product is
oversold. -/
def LedgerInv (s : ServerState) : Prop :=
  (∀ o ∈ s.orders, ∃ p ∈ s.products, p.id = o.productId) ∧
  (s.products.map Product.id).Nodup ∧
  (∀ p ∈ s.products, soldQty s.orders p.id ≤ p.quantity)

/-! ### Concrete sample data used to instantiate the theorems -/

/-- A run of the server from empty data files: register a farmer. -/
def stW1 : ServerState := (register (ServerState.mk [] [] []) "Fred" "farmer" "u1" "t1").2

/-- Next the run registers a buyer. -/
def stW2 : ServerState := (register stW1 "Bob" "buyer" "u2" "t2").2

/-- Next the farmer lists 5 crates of apples. -/
def stW3 : ServerState := (createProduct stW2 "t1" "Apples" "crate" 3 5 "p1").2

/-- Next the buyer orders 3 of them. -/
def stW4 : ServerState := (placeOrder stW3 "t2" "p1" 3 "o1" "2025-01-01").2

/-- The apples listing as it sits in `stW3`/`stW4`. -/
def prodW : Product := Product.mk "p1" "u1" "Apples" "crate" 3 5

/-- A registered farmer. -/
def userF : User := User.mk "f1" "Fay" "farmer" "tf"

/-- A registered buyer. -/
def userB : User := User.mk "b1" "Ben" "buyer" "tb"

/-- A fresh listing with total quantity 10. -/
def prodTen : Product := Product.mk "p1" "f1" "Yam" "" 2 10

/-- A state with the fresh listing and no orders. -/
def stA : ServerState := ServerState.mk [userF, userB] [prodTen] []

/-- The order of quantity 4 that `placeOrder` appends from `stA`. -/
def ordFour : Order := Order.mk "o1" "p1" "b1" 4 "d1"

/-- The state `stA` after the successful order of quantity 4. -/
def stB : ServerState := ServerState.mk [userF, userB] [prodTen] [ordFour]

/-- A state holding only a buyer and the quantity-10 listing. -/
def stC3 : ServerState := ServerState.mk [userB] [prodTen] []

/-- A lone registered farmer holding token `"t0"`. -/
def userSolo : User := User.mk "a1" "Ann" "farmer" "t0"

/-- A state whose only user is `userSolo`. -/
def stSolo : ServerState := ServerState.mk [userSolo] [] []

/-- An actor named Alice registered as a farmer. -/
def userAlice : User := User.mk "a2" "Alice" "farmer" "t9"

/-- A state whose only user is `userAlice`. -/
def stReg : ServerState := ServerState.mk [userAlice] [] []

/-- A tomato listing priced 2. -/
def prodTom1 : Product := Product.mk "p1" "f1" "Tomato" "" 2 10

/-- A second tomato listing priced 4. -/
def prodTom2 : Product := Product.mk "p2" "f1" "Tomato" "" 4 10

/-- An order of quantity 3 against the first tomato listing. -/
def ordTom1 : Order := Order.mk "o1" "p1" "b1" 3 "d1"

/-- An order of quantity 5 against the second tomato listing. -/
def ordTom2 : Order := Order.mk "o2" "p2" "b1" 5 "d2"

/-- The two-tomato state of the spec's trends example. -/
def stTom : ServerState :=
  ServerState.mk [userF, userB] [prodTom1, prodTom2] [ordTom1, ordTom2]

/-! ### Basic lemmas about the embedded operations -/

theorem foldl_add_qty (l : List Order) (a : ℚ) :
    l.foldl (fun acc o => acc + o.qty) a = a + (l.map Order.qty).sum := by
  induction l generalizing a with
  | nil => simp
  | cons o l ih => simp [List.foldl_cons, ih (a + o.qty)]; ring

theorem soldQty_eq_sum (os : List Order) (pid : String) :
    soldQty os pid = ((os.filter (fun o => o.productId == pid)).map Order.qty).sum := by
  simp [soldQty, foldl_add_qty]

theorem soldQty_append (os : List Order) (o : Order) (pid : String) :
    soldQty (os ++ [o]) pid
      = soldQty os pid + (if o.productId = pid then o.qty else 0) := by
  simp only [soldQty_eq_sum, List.filter_append, List.map_append, List.sum_append]
  by_cases h : o.productId = pid <;> simp [h]

theorem soldQty_eq_zero (os : List Order) (pid : String)
    (h : ∀ o ∈ os, o.productId ≠ pid) : soldQty os pid = 0 := by
  rw [soldQty_eq_sum]
  have : os.filter (fun o => o.productId == pid) = [] := by
    rw [List.filter_eq_nil_iff]
    intro o ho
    simpa using h o ho
  simp [this]

theorem register_products (s : ServerState) (name ty nid ntok : String) :
    (register s name ty nid ntok).2.products = s.products := by
  unfold register
  split
  · rfl
  · split <;> rfl

theorem register_orders (s : ServerState) (name ty nid ntok : String) :
    (register s name ty nid ntok).2.orders = s.orders := by
  unfold register
  split
  · rfl
  · split <;> rfl

theorem login_products (s : ServerState) (name ty ntok : String) :
    (login s name ty ntok).2.products = s.products := by
  unfold login
  split
  · rfl
  · split <;> rfl

theorem login_orders (s : ServerState) (name ty ntok : String) :
    (login s name ty ntok).2.orders = s.orders := by
  unfold login
  split
  · rfl
  · split <;> rfl

theorem createProduct_orders (s : ServerState) (tok name desc : String)
    (price quantity : ℚ) (nid : String) :
    (createProduct s tok name desc price quantity nid).2.orders = s.orders := by
  unfold createProduct createProductAuthed
  split
  · rfl
  · split
    · rfl
    · split <;> rfl

theorem createProduct_users (s : ServerState) (tok name desc : String)
    (price quantity : ℚ) (nid : String) :
    (createProduct s tok name desc price quantity nid).2.users = s.users := by
  unfold createProduct createProductAuthed
  split
  · rfl
  · split
    · rfl
    · split <;> rfl

theorem placeOrder_products (s : ServerState) (tok pid : String) (qty : ℚ)
    (nid date : String) :
    (placeOrder s tok pid qty nid date).2.products = s.products := by
  unfold placeOrder placeOrderAuthed
  split
  · rfl
  · split
    · rfl
    · split
      · rfl
      · split
        · rfl
        · split <;> rfl

/-! ### The ledger invariant and the no-oversell theorem -/

theorem ledgerInv_of_eq {s s2 : ServerState} (hp : s2.products = s.products)
    (ho : s2.orders = s.orders) (h : LedgerInv s) : LedgerInv s2 := by
  unfold LedgerInv at h ⊢
  rw [hp, ho]
  exact h

theorem ledgerInv_init : LedgerInv (ServerState.mk [] [] []) := by
  refine ⟨?_, ?_, ?_⟩ <;> simp [LedgerInv]

theorem ledgerInv_createProductAuthed (s : ServerState) (u : User)
    (name desc : String) (price quantity : ℚ) (nid : String)
    (hfresh : ∀ p ∈ s.products, p.id ≠ nid) (hinv : LedgerInv s) :
    LedgerInv (createProductAuthed s u name desc price quantity nid).2 := by
  unfold createProductAuthed
  by_cases hrole : u.type ≠ "farmer"
  · simpa [hrole] using hinv
  · by_cases hval : name = "" ∨ price ≤ 0 ∨ quantity ≤ 0
    · simpa [hrole, hval] using hinv
    · rw [if_neg hrole, if_neg hval]
      push_neg at hval
      obtain ⟨hn, hpr, hq⟩ := hval
      obtain ⟨href, hnodup, hsell⟩ := hinv
      refine ⟨?_, ?_, ?_⟩
      · intro o ho
        obtain ⟨p, hp, hpid⟩ := href o ho
        exact ⟨p, List.mem_append_left _ hp, hpid⟩
      · show (List.map Product.id
          (s.products ++ [Product.mk nid u.id name desc price quantity])).Nodup
        rw [List.map_append, List.nodup_append]
        refine ⟨hnodup, by simp, ?_⟩
        intro a ha hb
        simp only [List.map_cons, List.map_nil, List.mem_singleton] at hb
        obtain ⟨p, hp, hpa⟩ := List.mem_map.mp ha
        exact hfresh p hp (hpa.trans hb)
      · intro p hp
        rcases List.mem_append.mp hp with hmem | hmem
        · exact hsell p hmem
        · simp only [List.mem_singleton] at hmem
          subst hmem
          have hz : soldQty s.orders nid = 0 := by
            apply soldQty_eq_zero
            intro o ho hcontra
            obtain ⟨q, hq2, hqid⟩ := href o ho
            exact hfresh q hq2 (hqid.trans hcontra)
          show soldQty s.orders nid ≤ quantity
          rw [hz]
          exact hq.le

theorem ledgerInv_placeOrderAuthed (s : ServerState) (u : User)
    (pid : String) (qty : ℚ) (nid date : String) (hinv : LedgerInv s) :
    LedgerInv (placeOrderAuthed s u pid qty nid date).2 := by
  unfold placeOrderAuthed
  by_cases hrole : u.type ≠ "buyer"
  · simpa [hrole] using hinv
  · by_cases hval : pid = "" ∨ qty ≤ 0
    · simpa [hrole, hval] using hinv
    · rw [if_neg hrole, if_neg hval]
      split
      · exact hinv
      · rename_i pf hfind
        have hpfmem : pf ∈ s.products := List.mem_of_find?_eq_some hfind
        have hpfid : pf.id = pid := by simpa using List.find?_some hfind
        by_cases havail : pf.quantity - soldQty s.orders pid < qty
        · simpa [havail] using hinv
        · rw [if_neg havail]
          rw [not_lt] at havail
          obtain ⟨href, hnodup, hsell⟩ := hinv
          refine ⟨?_, ?_, ?_⟩
          · intro o ho
            rcases List.mem_append.mp ho with hmem | hmem
            · exact href o hmem
            · simp only [List.mem_singleton] at hmem
              subst hmem
              exact ⟨pf, hpfmem, hpfid⟩
          · exact hnodup
          · intro p hp
            show soldQty (s.orders ++ [Order.mk nid pid u.id qty date]) p.id ≤ p.quantity
            rw [soldQty_append]
            by_cases hpp : pid = p.id
            · have hppf : p = pf :=
                List.inj_on_of_nodup_map hnodup hp hpfmem (by rw [hpfid, hpp])
              rw [if_pos (show (Order.mk nid pid u.id qty date).productId = p.id from hpp)]
              show soldQty s.orders p.id + qty ≤ p.quantity
              rw [← hpp, hppf]
              linarith
            · rw [if_neg (show ¬ ((Order.mk nid pid u.id qty date).productId = p.id) from hpp)]
              rw [add_zero]
              exact hsell p hp

theorem ledgerInv_step {s s2 : ServerState} (h : Step s s2) (hinv : LedgerInv s) :
    LedgerInv s2 := by
  cases h with
  | registerStep name ty nid ntok =>
      exact ledgerInv_of_eq (register_products s name ty nid ntok)
        (register_orders s name ty nid ntok) hinv
  | loginStep name ty ntok =>
      exact ledgerInv_of_eq (login_products s name ty ntok)
        (login_orders s name ty ntok) hinv
  | createProductStep tok name desc price quantity nid hfresh =>
      unfold createProduct
      split
      · exact hinv
      · rename_i u hres
        exact ledgerInv_createProductAuthed s u name desc price quantity nid hfresh hinv
  | placeOrderStep tok pid qty nid date =>
      unfold placeOrder
      split
      · exact hinv
      · rename_i u hres
        exact ledgerInv_placeOrderAuthed s u pid qty nid date hinv

theorem reachable_ledgerInv {s : ServerState} (h : Reachable s) : LedgerInv s := by
  induction h with
  | init => exact ledgerInv_init
  | step _ hstep ih => exact ledgerInv_step hstep ih

/-- A valid registration/login credential pair never trips the first
validation check of `POST /register` / `POST /login`. -/
theorem cred_check_false (name ty : String) (hn : name ≠ "")
    (hty : ty = "farmer" ∨ ty = "buyer") :
    ¬(name = "" ∨ ty = "" ∨ (ty ≠ "farmer" ∧ ty ≠ "buyer")) := by
  push_neg
  refine ⟨hn, ?_, ?_⟩
  · rcases hty with h | h <;> simp [h]
  · intro h1
    rcases hty with h | h
    · exact absurd h h1
    · exact h

/-- The success path of `POST /products`: an authenticated farmer with
valid fields appends the new listing. -/
theorem createProduct_success (s : ServerState) (tok name desc : String)
    (price quantity : ℚ) (nid : String) (u : User)
    (hres : resolveToken s tok = some u) (hfarm : u.type = "farmer")
    (hn : name ≠ "") (hp : 0 < price) (hq : 0 < quantity) :
    createProduct s tok name desc price quantity nid
      = (CreateResult.ok (Product.mk nid u.id name desc price quantity),
         ServerState.mk s.users
           (s.products ++ [Product.mk nid u.id name desc price quantity]) s.orders) := by
  unfold createProduct
  simp only [hres]
  unfold createProductAuthed
  rw [if_neg (fun h => h hfarm),
    if_neg (by push_neg; exact ⟨hn, hp, hq⟩)]

/-- The success path of `POST /orders`: an authenticated buyer ordering
an available quantity appends the new order record. -/
theorem placeOrder_success (s : ServerState) (tok pid : String) (qty : ℚ)
    (nid date : String) (u : User) (pf : Product)
    (hres : resolveToken s tok = some u) (hbuy : u.type = "buyer")
    (hpid : pid ≠ "") (hqty : 0 < qty)
    (hfind : s.products.find? (fun p => p.id == pid) = some pf)
    (havail : ¬ (pf.quantity - soldQty s.orders pid < qty)) :
    placeOrder s tok pid qty nid date
      = (OrderResult.ok (Order.mk nid pid u.id qty date),
         ServerState.mk s.users s.products
           (s.orders ++ [Order.mk nid pid u.id qty date])) := by
  unfold placeOrder
  simp only [hres]
  unfold placeOrderAuthed
  rw [if_neg (fun h => h hbuy), if_neg (by push_neg; exact ⟨hpid, hqty⟩)]
  simp only [hfind]
  rw [if_neg havail]

/-- The `InsufficientQuantity` path of `POST /orders`: the response
carries the requested and the available quantity and the state is
unchanged. -/
theorem placeOrder_insufficient (s : ServerState) (tok pid : String) (qty : ℚ)
    (nid date : String) (u : User) (pf : Product)
    (hres : resolveToken s tok = some u) (hbuy : u.type = "buyer")
    (hpid : pid ≠ "") (hqty : 0 < qty)
    (hfind : s.products.find? (fun p => p.id == pid) = some pf)
    (havail : pf.quantity - soldQty s.orders pid < qty) :
    placeOrder s tok pid qty nid date
      = (OrderResult.insufficient qty (pf.quantity - soldQty s.orders pid), s) := by
  unfold placeOrder
  simp only [hres]
  unfold placeOrderAuthed
  rw [if_neg (fun h => h hbuy), if_neg (by push_neg; exact ⟨hpid, hqty⟩)]
  simp only [hfind]
  rw [if_pos havail]

/-- Claim C1 (no oversell): in every state reachable from the empty data
files by any sequence of operations (register, login, createListing,
placeOrder — the reads do not change the state), for every listing `p`
the sum of `qty` over all ledger records whose `productId` references
`p` never exceeds `p.quantity`.  Since every successful `placeOrder`
appends its quantity to the ledger, among any K `placeOrder` calls
against `p` the successful quantities sum to at most `p.quantity`. -/
theorem noOversell_reachable (s : ServerState) (hs : Reachable s) :
    ∀ p ∈ s.products,
      ((s.orders.filter (fun o => o.productId == p.id)).map Order.qty).sum ≤ p.quantity ∧
      soldQty s.orders p.id ≤ p.quantity := by
  intro p hp
  have h := (reachable_ledgerInv hs).2.2 p hp
  exact ⟨by rw [← soldQty_eq_sum]; exact h, h⟩

/-- Witness for C1: a concrete three-step run of the server (register a
farmer, register a buyer, create a listing) reaching a state with one
listing. -/
theorem noOversell_reachable_witness :
    ((stW3.orders.filter (fun o => o.productId == prodW.id)).map Order.qty).sum
        ≤ prodW.quantity ∧
      soldQty stW3.orders prodW.id ≤ prodW.quantity :=
  noOversell_reachable stW3
    (Reachable.step (Reachable.step (Reachable.step Reachable.init
      (Step.registerStep (ServerState.mk [] [] []) "Fred" "farmer" "u1" "t1"))
      (Step.registerStep stW1 "Bob" "buyer" "u2" "t2"))
      (Step.createProductStep stW2 "t1" "Apples" "crate" 3 5 "p1" (by decide)))
    prodW (by decide)

/-- Claim C2: availability is exactly total minus committed orders —
`GET /products/:id` reports `quantity` minus the sum of the quantities
of the orders against the listing; and the spec's 10/4/7 scenario: a
fresh quantity-10 listing has remaining 10, a successful order of 4
leaves 6, and a subsequent request for 7 fails with
`InsufficientQuantity(7, 6)`, appends nothing and leaves remaining 6. -/
theorem remaining_spec :
    (∀ (s : ServerState) (pid : String) (p : Product),
        s.products.find? (fun q => q.id == pid) = some p →
        (getProduct s pid).map ProductDetail.quantityAvailable
          = some (p.quantity -
              ((s.orders.filter (fun o => o.productId == p.id)).map Order.qty).sum))
    ∧ (getProduct stA "p1").map ProductDetail.quantityAvailable = some 10
    ∧ placeOrder stA "tb" "p1" 4 "o1" "d1" = (OrderResult.ok ordFour, stB)
    ∧ (getProduct stB "p1").map ProductDetail.quantityAvailable = some 6
    ∧ placeOrder stB "tb" "p1" 7 "o2" "d2" = (OrderResult.insufficient 7 6, stB)
    ∧ (getProduct stB "p1").map ProductDetail.quantityAvailable = some 6 := by
  have hfA : stA.products.find? (fun q => q.id == "p1") = some prodTen := by decide
  have hfB : stB.products.find? (fun q => q.id == "p1") = some prodTen := by decide
  have hres : resolveToken stA "tb" = some userB := by decide
  have hresB : resolveToken stB "tb" = some userB := by decide
  have hremA : (getProduct stA "p1").map ProductDetail.quantityAvailable = some 10 := by
    norm_num [getProduct, hfA, stA, prodTen, soldQty]
  have hremB : (getProduct stB "p1").map ProductDetail.quantityAvailable = some 6 := by
    norm_num [getProduct, hfB, stB, prodTen, ordFour, soldQty]
  refine ⟨?_, hremA, ?_, hremB, ?_, hremB⟩
  · intro s pid p hfind
    have hpid : p.id = pid := by simpa using List.find?_some hfind
    simp [getProduct, hfind, soldQty_eq_sum, hpid]
  · rw [placeOrder_success stA "tb" "p1" 4 "o1" "d1" userB prodTen hres rfl
      (by decide) (by norm_num) hfA (by norm_num [stA, prodTen, soldQty])]
    decide
  · rw [placeOrder_insufficient stB "tb" "p1" 7 "o2" "d2" userB prodTen hresB rfl
      (by decide) (by norm_num) hfB (by norm_num [stB, prodTen, ordFour, soldQty])]
    norm_num [stB, prodTen, ordFour, soldQty]

/-- Witness for C2's universally quantified part, at the fresh
quantity-10 listing. -/
theorem remaining_spec_witness :
    (getProduct stA "p1").map ProductDetail.quantityAvailable
      = some (prodTen.quantity -
          ((stA.orders.filter (fun o => o.productId == prodTen.id)).map Order.qty).sum) :=
  remaining_spec.1 stA "p1" prodTen (by decide)

/-- Claim C3 counterexample: the claim orders the checks as Forbidden,
then NotFound, then InvalidInput with quantity required to be a positive
integer.  The code (lines 186-191) checks `!productId || typeof qty !==
'number' || qty <= 0` *before* the product lookup and accepts any
positive number: an order of quantity 5/2 on an existing listing
succeeds (the claim demands `InvalidInput`), and an order of quantity 0
on a nonexistent listing yields `InvalidInput` (the claim demands
`NotFound`). -/
theorem placeOrder_preconditions_counterexample :
    (placeOrder stC3 "tb" "p1" (5/2) "o1" "d1").1
        = OrderResult.ok (Order.mk "o1" "p1" "b1" (5/2) "d1")
    ∧ (placeOrder stC3 "tb" "p1" (5/2) "o1" "d1").2.orders ≠ stC3.orders
    ∧ (placeOrder stC3 "tb" "nope" 0 "o2" "d2").1 = OrderResult.invalidData
    ∧ (placeOrder stC3 "tb" "nope" 0 "o2" "d2").1 ≠ OrderResult.notFound := by
  have h := placeOrder_success stC3 "tb" "p1" (5/2) "o1" "d1" userB prodTen
    (by decide) rfl (by decide) (by norm_num) (by decide)
    (by norm_num [stC3, prodTen, soldQty])
  refine ⟨?_, ?_, by decide, by decide⟩
  · rw [h]
    rfl
  · rw [h]
    decide

/-- Claim C3 (amended): for every `placeOrder` call by an authenticated
caller, if the caller's role is not buyer it fails with `Forbidden`;
otherwise if the listing id is missing or the quantity is not a
positive number it fails with `InvalidInput`; otherwise if the listing
id does not resolve to an existing listing it fails with `NotFound`;
in each failure case the state (hence the ledger) is unchanged. -/
theorem placeOrder_preconditions (s : ServerState) (tok pid : String) (qty : ℚ)
    (nid date : String) (u : User) (hres : resolveToken s tok = some u) :
    (u.type ≠ "buyer" → placeOrder s tok pid qty nid date = (OrderResult.forbidden, s))
    ∧ (u.type = "buyer" → (pid = "" ∨ qty ≤ 0) →
        placeOrder s tok pid qty nid date = (OrderResult.invalidData, s))
    ∧ (u.type = "buyer" → ¬(pid = "" ∨ qty ≤ 0) →
        s.products.find? (fun p => p.id == pid) = none →
        placeOrder s tok pid qty nid date = (OrderResult.notFound, s)) := by
  unfold placeOrder
  simp only [hres]
  refine ⟨?_, ?_, ?_⟩
  · intro hrole
    unfold placeOrderAuthed
    rw [if_pos hrole]
  · intro hbuy hval
    unfold placeOrderAuthed
    rw [if_neg (fun h => h hbuy), if_pos hval]
  · intro hbuy hval hfindnone
    unfold placeOrderAuthed
    rw [if_neg (fun h => h hbuy), if_neg hval]
    simp only [hfindnone]

/-- Witness for C3 (amended): an empty listing id yields `InvalidInput`
and leaves the state unchanged. -/
theorem placeOrder_preconditions_witness :
    placeOrder stC3 "tb" "" 1 "o3" "d3" = (OrderResult.invalidData, stC3) :=
  (placeOrder_preconditions stC3 "tb" "" 1 "o3" "d3" userB (by decide)).2.1
    (by decide) (Or.inl rfl)

/-- Claim C4: `register` fails with `DuplicateActor` exactly when an
actor with the same `(displayName, role)` pair already exists, in
which case the state is unchanged; when no such actor exists — in
particular, registering the same name under the other role — it
succeeds and appends a new actor carrying the freshly generated id and
token. -/
theorem register_duplicate (s : ServerState) (name ty nid ntok : String)
    (hn : name ≠ "") (hty : ty = "farmer" ∨ ty = "buyer") :
    ((register s name ty nid ntok).1 = RegisterResult.duplicate ↔
      ∃ u ∈ s.users, u.name = name ∧ u.type = ty)
    ∧ ((register s name ty nid ntok).1 = RegisterResult.duplicate →
        (register s name ty nid ntok).2 = s)
    ∧ ((∀ u ∈ s.users, ¬(u.name = name ∧ u.type = ty)) →
        register s name ty nid ntok
          = (RegisterResult.ok (User.mk nid name ty ntok),
             ServerState.mk (s.users ++ [User.mk nid name ty ntok]) s.products s.orders)) := by
  unfold register
  rw [if_neg (cred_check_false name ty hn hty)]
  by_cases hdup : (s.users.find? (fun u => u.name == name && u.type == ty)).isSome
  · rw [if_pos hdup]
    rw [List.find?_isSome] at hdup
    obtain ⟨u, hu, hpu⟩ := hdup
    have hu2 : u.name = name ∧ u.type = ty := by simpa using hpu
    refine ⟨⟨fun _ => ⟨u, hu, hu2⟩, fun _ => rfl⟩, fun _ => rfl, ?_⟩
    intro hnone
    exact absurd hu2 (hnone u hu)
  · rw [if_neg hdup]
    refine ⟨⟨fun h => (nomatch h), ?_⟩, fun h => (nomatch h), fun _ => rfl⟩
    rintro ⟨u, hu, hn2, ht2⟩
    exact absurd (List.find?_isSome.mpr ⟨u, hu, by simp [hn2, ht2]⟩) hdup

/-- Witness for C4: with "Alice" registered as a farmer, registering
"Alice" as a buyer succeeds and appends the new actor. -/
theorem register_duplicate_witness :
    register stReg "Alice" "buyer" "a3" "t3"
      = (RegisterResult.ok (User.mk "a3" "Alice" "buyer" "t3"),
         ServerState.mk (stReg.users ++ [User.mk "a3" "Alice" "buyer" "t3"])
           stReg.products stReg.orders) :=
  (register_duplicate stReg "Alice" "buyer" "a3" "t3" (by decide) (Or.inr rfl)).2.2
    (by decide)

/-- Claim C9: the Ledger is append-only — `register`, `login` and
`createProduct` leave `orders` exactly unchanged (the read handlers
produce no new state at all), and `placeOrder` either leaves `orders`
unchanged and reports no success, or reports success and extends
`orders` by exactly the one new record, preserving every previously
committed record. -/
theorem ledger_append_only (s : ServerState) :
    (∀ (name ty nid ntok : String), (register s name ty nid ntok).2.orders = s.orders)
    ∧ (∀ (name ty ntok : String), (login s name ty ntok).2.orders = s.orders)
    ∧ (∀ (tok name desc : String) (price quantity : ℚ) (nid : String),
        (createProduct s tok name desc price quantity nid).2.orders = s.orders)
    ∧ (∀ (tok pid : String) (qty : ℚ) (nid date : String),
        ((placeOrder s tok pid qty nid date).2.orders = s.orders
            ∧ ∀ o : Order, (placeOrder s tok pid qty nid date).1 ≠ OrderResult.ok o)
        ∨ (∃ o : Order, (placeOrder s tok pid qty nid date).1 = OrderResult.ok o
            ∧ (placeOrder s tok pid qty nid date).2.orders = s.orders ++ [o])) := by
  refine ⟨fun name ty nid ntok => register_orders s name ty nid ntok,
    fun name ty ntok => login_orders s name ty ntok,
    fun tok name desc price quantity nid =>
      createProduct_orders s tok name desc price quantity nid,
    fun tok pid qty nid date => ?_⟩
  unfold placeOrder
  split
  · exact Or.inl ⟨rfl, fun o h => (nomatch h)⟩
  · rename_i u hres
    unfold placeOrderAuthed
    by_cases hrole : u.type ≠ "buyer"
    · rw [if_pos hrole]
      exact Or.inl ⟨rfl, fun o h => (nomatch h)⟩
    · rw [if_neg hrole]
      by_cases hval : pid = "" ∨ qty ≤ 0
      · rw [if_pos hval]
        exact Or.inl ⟨rfl, fun o h => (nomatch h)⟩
      · rw [if_neg hval]
        split
        · exact Or.inl ⟨rfl, fun o h => (nomatch h)⟩
        · rename_i pf hfind
          by_cases havail : pf.quantity - soldQty s.orders pid < qty
          · rw [if_pos havail]
            exact Or.inl ⟨rfl, fun o h => (nomatch h)⟩
          · rw [if_neg havail]
            exact Or.inr ⟨Order.mk nid pid u.id qty date, rfl, rfl⟩

/-- After `login` rotates the token of the found user, no user holds
the old token any more, provided the old token had a single holder and
the fresh token differs from it. -/
theorem find_token_none (name ty ntok : String) :
    ∀ (l : List User) (u : User),
      l.find? (fun v => v.name == name && v.type == ty) = some u →
      l.countP (fun v => v.token == u.token) ≤ 1 →
      ntok ≠ u.token →
      (updateFirst (fun v => v.name == name && v.type == ty) (setToken ntok) l).find?
        (fun v => v.token == u.token) = none := by
  intro l
  induction l with
  | nil =>
      intro u h
      exact (nomatch h)
  | cons x xs ih =>
      intro u hfind hcount hne
      rw [List.find?_cons] at hfind
      rw [List.countP_cons] at hcount
      by_cases hx : (x.name == name && x.type == ty) = true
      · simp only [hx] at hfind
        have hux : x = u := Option.some.inj hfind
        have hcnt0 : xs.countP (fun v => v.token == u.token) = 0 := by
          simp only [hux, beq_self_eq_true, if_true] at hcount
          omega
        rw [updateFirst, if_pos hx, List.find?_cons]
        have htok : ((setToken ntok x).token == u.token) = false := by
          simp only [setToken]
          exact beq_eq_false_iff_ne.mpr hne
        simp only [htok]
        rw [List.find?_eq_none]
        rw [List.countP_eq_zero] at hcnt0
        exact hcnt0
      · simp only [Bool.not_eq_true] at hx
        simp only [hx] at hfind
        have hxtok : (x.token == u.token) = false := by
          by_contra hxp
          rw [Bool.not_eq_false] at hxp
          simp only [hxp, if_true] at hcount
          have h0 : xs.countP (fun v => v.token == u.token) = 0 := by omega
          rw [List.countP_eq_zero] at h0
          exact h0 u (List.mem_of_find?_eq_some hfind) (by simp)
        rw [updateFirst, if_neg (by simp [hx]), List.find?_cons]
        simp only [hxtok]
        exact ih u hfind (le_trans (Nat.le_add_right _ _) hcount) hne

/-- Claim C5: token rotation invalidates the prior session — when
`authenticate` succeeds for an actor whose current token has no other
holder, the token is replaced, and the previous token no longer
resolves, so every protected operation presented with it fails with
`Unauthenticated` (and changes nothing). -/
theorem token_rotation (s : ServerState) (name ty ntok : String) (u : User)
    (hfind : s.users.find? (fun v => v.name == name && v.type == ty) = some u)
    (hn : name ≠ "") (hty : ty = "farmer" ∨ ty = "buyer")
    (hne : ntok ≠ u.token)
    (hcount : s.users.countP (fun v => v.token == u.token) ≤ 1) :
    (login s name ty ntok).1 = LoginResult.ok (setToken ntok u)
    ∧ resolveToken (login s name ty ntok).2 u.token = none
    ∧ (∀ (pname pdesc : String) (price quantity : ℚ) (nid : String),
        createProduct (login s name ty ntok).2 u.token pname pdesc price quantity nid
          = (CreateResult.unauth, (login s name ty ntok).2))
    ∧ (∀ (pid : String) (qty : ℚ) (nid date : String),
        placeOrder (login s name ty ntok).2 u.token pid qty nid date
          = (OrderResult.unauth, (login s name ty ntok).2))
    ∧ getOrders (login s name ty ntok).2 u.token = OrdersResult.unauth := by
  have hnone : resolveToken (login s name ty ntok).2 u.token = none := by
    unfold login
    rw [if_neg (cred_check_false name ty hn hty)]
    simp only [hfind]
    exact find_token_none name ty ntok s.users u hfind hcount hne
  refine ⟨?_, hnone, ?_, ?_, ?_⟩
  · unfold login
    rw [if_neg (cred_check_false name ty hn hty)]
    simp only [hfind]
  · intro pname pdesc price quantity nid
    unfold createProduct
    simp only [hnone]
  · intro pid qty nid date
    unfold placeOrder
    simp only [hnone]
  · unfold getOrders
    simp only [hnone]

/-- Witness for C5: after the lone farmer logs in again, the old token
`"t0"` no longer authenticates. -/
theorem token_rotation_witness :
    resolveToken (login stSolo "Ann" "farmer" "t1").2 userSolo.token = none
    ∧ createProduct (login stSolo "Ann" "farmer" "t1").2 userSolo.token "x" "" 1 1 "p9"
        = (CreateResult.unauth, (login stSolo "Ann" "farmer" "t1").2)
    ∧ getOrders (login stSolo "Ann" "farmer" "t1").2 userSolo.token = OrdersResult.unauth :=
  ⟨(token_rotation stSolo "Ann" "farmer" "t1" userSolo (by decide) (by decide)
      (Or.inl rfl) (by decide) (by decide)).2.1,
   (token_rotation stSolo "Ann" "farmer" "t1" userSolo (by decide) (by decide)
      (Or.inl rfl) (by decide) (by decide)).2.2.1 "x" "" 1 1 "p9",
   (token_rotation stSolo "Ann" "farmer" "t1" userSolo (by decide) (by decide)
      (Or.inl rfl) (by decide) (by decide)).2.2.2.2⟩

/-- Claim C6: `createListing` role and input validation — an
authenticated non-farmer gets `Forbidden` and the catalog is unchanged;
a farmer gets `InvalidInput` unless the name is non-empty and the price
and quantity are positive; on success the new listing, owned by the
caller, is appended. -/
theorem createListing_validation (s : ServerState) (tok name desc : String)
    (price quantity : ℚ) (nid : String) (u : User)
    (hres : resolveToken s tok = some u) :
    (u.type ≠ "farmer" →
        createProduct s tok name desc price quantity nid = (CreateResult.forbidden, s))
    ∧ (u.type = "farmer" → (name = "" ∨ price ≤ 0 ∨ quantity ≤ 0) →
        createProduct s tok name desc price quantity nid = (CreateResult.invalidData, s))
    ∧ (u.type = "farmer" → name ≠ "" → 0 < price → 0 < quantity →
        createProduct s tok name desc price quantity nid
          = (CreateResult.ok (Product.mk nid u.id name desc price quantity),
             ServerState.mk s.users
               (s.products ++ [Product.mk nid u.id name desc price quantity]) s.orders)) := by
  refine ⟨?_, ?_, ?_⟩
  · intro hrole
    unfold createProduct
    simp only [hres]
    unfold createProductAuthed
    rw [if_pos hrole]
  · intro hfarm hval
    unfold createProduct
    simp only [hres]
    unfold createProductAuthed
    rw [if_neg (fun h => h hfarm), if_pos hval]
  · intro hfarm hn hp hq
    exact createProduct_success s tok name desc price quantity nid u hres hfarm hn hp hq

/-- Witness for C6: the lone farmer successfully lists a product. -/
theorem createListing_validation_witness :
    createProduct stSolo "t0" "Corn" "" 2 7 "p7"
      = (CreateResult.ok (Product.mk "p7" userSolo.id "Corn" "" 2 7),
         ServerState.mk stSolo.users
           (stSolo.products ++ [Product.mk "p7" userSolo.id "Corn" "" 2 7]) stSolo.orders) :=
  (createListing_validation stSolo "t0" "Corn" "" 2 7 "p7" userSolo (by decide)).2.2
    rfl (by decide) (by decide) (by decide)

/-- Claim C7: `GET /products` returns exactly the listings whose computed
remaining quantity is positive — it equals the catalog filtered to
positive remaining quantity, each mapped to its augmented view — and a
view is in the response iff it is the augmented view of some listing
with positive remaining quantity; the augmentation carries the computed
remaining quantity and the owner's display name. -/
theorem listProducts_spec (s : ServerState) :
    listProducts s
      = (s.products.filter
          (fun p => decide (0 < p.quantity - soldQty s.orders p.id))).map (productView s)
    ∧ (∀ v : ProductView, v ∈ listProducts s ↔
        ∃ p ∈ s.products, 0 < p.quantity - soldQty s.orders p.id ∧ v = productView s p)
    ∧ (∀ p : Product,
        (productView s p).quantityAvailable = p.quantity - soldQty s.orders p.id
        ∧ (productView s p).farmerName = farmerNameOf s p.farmerId) := by
  have heq : listProducts s
      = (s.products.filter
          (fun p => decide (0 < p.quantity - soldQty s.orders p.id))).map (productView s) := by
    unfold listProducts
    rw [List.filter_map]
    rfl
  refine ⟨heq, ?_, fun p => ⟨rfl, rfl⟩⟩
  intro v
  rw [heq]
  constructor
  · intro hv
    obtain ⟨p, hp, hpv⟩ := List.mem_map.mp hv
    rw [List.mem_filter] at hp
    exact ⟨p, hp.1, by simpa using hp.2, hpv.symm⟩
  · rintro ⟨p, hp, hq, rfl⟩
    exact List.mem_map.mpr ⟨p, List.mem_filter.mpr ⟨hp, by simpa using hq⟩, rfl⟩

/-- When a predicate has exactly one hit in a list, `find?` returns any
member satisfying it. -/
theorem countP_one_find {α : Type} (p : α → Bool) :
    ∀ (l : List α) (u : α), l.countP p = 1 → u ∈ l → p u = true → l.find? p = some u := by
  intro l
  induction l with
  | nil =>
      intro u _ hu
      exact absurd hu (List.not_mem_nil u)
  | cons x xs ih =>
      intro u hcount hu hpu
      rw [List.countP_cons] at hcount
      by_cases hx : p x = true
      · rw [List.find?_cons]
        simp only [hx]
        rcases List.mem_cons.mp hu with rfl | hu2
        · rfl
        · exfalso
          simp only [hx, if_true] at hcount
          have h0 : xs.countP p = 0 := by omega
          rw [List.countP_eq_zero] at h0
          exact h0 u hu2 hpu
      · rw [List.find?_cons]
        simp only [Bool.not_eq_true] at hx
        simp only [hx]
        rcases List.mem_cons.mp hu with rfl | hu2
        · exact absurd hpu (by simp [hx])
        · refine ih u ?_ hu2 hpu
          simp [hx] at hcount
          exact hcount

/-- The handler body `createProductAuthed` never reports `Unauthenticated`. -/
theorem createProductAuthed_ne_unauth (s : ServerState) (u : User)
    (name desc : String) (price quantity : ℚ) (nid : String) :
    (createProductAuthed s u name desc price quantity nid).1 ≠ CreateResult.unauth := by
  unfold createProductAuthed
  split
  · exact fun h => (nomatch h)
  · split
    · exact fun h => (nomatch h)
    · exact fun h => (nomatch h)

/-- The handler body `placeOrderAuthed` never reports `Unauthenticated`. -/
theorem placeOrderAuthed_ne_unauth (s : ServerState) (u : User)
    (pid : String) (qty : ℚ) (nid date : String) :
    (placeOrderAuthed s u pid qty nid date).1 ≠ OrderResult.unauth := by
  unfold placeOrderAuthed
  split
  · exact fun h => (nomatch h)
  · split
    · exact fun h => (nomatch h)
    · split
      · exact fun h => (nomatch h)
      · split
        · exact fun h => (nomatch h)
        · exact fun h => (nomatch h)

/-- The handler body `getOrdersAuthed` never reports `Unauthenticated`. -/
theorem getOrdersAuthed_ne_unauth (s : ServerState) (u : User) :
    getOrdersAuthed s u ≠ OrdersResult.unauth := by
  unfold getOrdersAuthed
  split
  · exact fun h => (nomatch h)
  · split
    · exact fun h => (nomatch h)
    · exact fun h => (nomatch h)

/-- Claim C10: when exactly one user's current session token equals `t` —
as holds for the token just issued by a successful register or login —
`authMiddleware` resolves bearer token `t` to that user, and every
protected operation presented with `t` acts on that user's behalf
instead of failing with `Unauthenticated`. -/
theorem token_resolution (s : ServerState) (t : String) (u : User)
    (hcount : s.users.countP (fun v => v.token == t) = 1)
    (hmem : u ∈ s.users) (htok : u.token = t) :
    resolveToken s t = some u
    ∧ (∀ (name desc : String) (price quantity : ℚ) (nid : String),
        createProduct s t name desc price quantity nid
          = createProductAuthed s u name desc price quantity nid)
    ∧ (∀ (pid : String) (qty : ℚ) (nid date : String),
        placeOrder s t pid qty nid date = placeOrderAuthed s u pid qty nid date)
    ∧ getOrders s t = getOrdersAuthed s u
    ∧ (∀ (name desc : String) (price quantity : ℚ) (nid : String),
        (createProduct s t name desc price quantity nid).1 ≠ CreateResult.unauth)
    ∧ (∀ (pid : String) (qty : ℚ) (nid date : String),
        (placeOrder s t pid qty nid date).1 ≠ OrderResult.unauth)
    ∧ getOrders s t ≠ OrdersResult.unauth := by
  have hres : resolveToken s t = some u := by
    unfold resolveToken
    exact countP_one_find (fun v => v.token == t) s.users u hcount hmem (by simp [htok])
  have hcp : ∀ (name desc : String) (price quantity : ℚ) (nid : String),
      createProduct s t name desc price quantity nid
        = createProductAuthed s u name desc price quantity nid := by
    intro name desc price quantity nid
    unfold createProduct
    simp only [hres]
  have hpo : ∀ (pid : String) (qty : ℚ) (nid date : String),
      placeOrder s t pid qty nid date = placeOrderAuthed s u pid qty nid date := by
    intro pid qty nid date
    unfold placeOrder
    simp only [hres]
  have hgo : getOrders s t = getOrdersAuthed s u := by
    unfold getOrders
    simp only [hres]
  refine ⟨hres, hcp, hpo, hgo, ?_, ?_, ?_⟩
  · intro name desc price quantity nid
    rw [hcp name desc price quantity nid]
    exact createProductAuthed_ne_unauth s u name desc price quantity nid
  · intro pid qty nid date
    rw [hpo pid qty nid date]
    exact placeOrderAuthed_ne_unauth s u pid qty nid date
  · rw [hgo]
    exact getOrdersAuthed_ne_unauth s u

/-- Witness for C10: the lone farmer's token resolves to the farmer and
protected operations act on the farmer's behalf. -/
theorem token_resolution_witness :
    resolveToken stSolo "t0" = some userSolo
    ∧ getOrders stSolo "t0" = getOrdersAuthed stSolo userSolo
    ∧ getOrders stSolo "t0" ≠ OrdersResult.unauth :=
  ⟨(token_resolution stSolo "t0" userSolo (by decide) (by decide) rfl).1,
   (token_resolution stSolo "t0" userSolo (by decide) (by decide) rfl).2.2.2.1,
   (token_resolution stSolo "t0" userSolo (by decide) (by decide) rfl).2.2.2.2.2.2⟩

/-- Updating the value at key `k` in the dictionary changes `tdGet` at
`k` by `g` and nothing else. -/
theorem tdGet_updateFirstVal (g : TrendEntry → TrendEntry) (k k2 : String) :
    ∀ td : TrendData,
      tdGet (updateFirst (fun kv => kv.1 == k) (fun kv => (kv.1, g kv.2)) td) k2
        = if k2 = k then (tdGet td k).map g else tdGet td k2 := by
  intro td
  induction td with
  | nil =>
      by_cases h2 : k2 = k <;> simp [updateFirst, tdGet, h2]
  | cons kv td ih =>
      by_cases hk : (kv.1 == k) = true
      · have hkeq : kv.1 = k := by simpa using hk
        by_cases h2 : k2 = k
        · have hbk2 : (kv.1 == k2) = true := by simp [hkeq, h2]
          simp [updateFirst, tdGet, List.find?_cons, hk, hbk2, h2]
        · have hbk2 : (kv.1 == k2) = false := by
            rw [hkeq]
            exact beq_eq_false_iff_ne.mpr (fun h => h2 h.symm)
          simp [updateFirst, tdGet, List.find?_cons, hk, hbk2, h2]
      · have hkf : (kv.1 == k) = false := by simpa using hk
        rcases hb : (kv.1 == k2) with _ | _
        · by_cases h2 : k2 = k
          · simp only [updateFirst, hkf, Bool.false_eq_true, if_false]
            simp only [tdGet, List.find?_cons, hb, hkf] at ih ⊢
            simpa [h2] using ih
          · simp only [updateFirst, hkf, Bool.false_eq_true, if_false]
            simp only [tdGet, List.find?_cons, hb] at ih ⊢
            simpa [h2] using ih
        · have h2 : ¬ (k2 = k) := by
            intro hh
            rw [hh] at hb
            rw [hkf] at hb
            exact (nomatch hb)
          simp [updateFirst, tdGet, List.find?_cons, hkf, hb, h2]

/-- Appending a fresh key/value pair only affects `tdGet` at keys that
were previously absent. -/
theorem tdGet_append (k : String) (e : TrendEntry) (k2 : String) :
    ∀ td : TrendData,
      tdGet (td ++ [(k, e)]) k2
        = if (tdGet td k2).isSome then tdGet td k2
          else if k2 = k then some e else none := by
  intro td
  induction td with
  | nil =>
      by_cases h2 : k2 = k
      · simp [tdGet, List.find?_cons, h2]
      · have hb : (k == k2) = false := beq_eq_false_iff_ne.mpr (fun h => h2 h.symm)
        simp [tdGet, List.find?_cons, hb, h2]
  | cons kv td ih =>
      rcases hb : (kv.1 == k2) with _ | _
      · simp only [List.cons_append]
        simp only [tdGet, List.find?_cons, hb] at ih ⊢
        exact ih
      · simp [tdGet, List.find?_cons, hb]

/-- Mapping a key-preserving function over the dictionary maps `tdGet`. -/
theorem tdGet_map (g : TrendEntry → TrendEntry) (k : String) :
    ∀ td : TrendData,
      tdGet (td.map (fun kv => (kv.1, g kv.2))) k = (tdGet td k).map g := by
  intro td
  induction td with
  | nil => rfl
  | cons kv td ih =>
      rcases hb : (kv.1 == k) with _ | _
      · simp only [List.map_cons]
        simp only [tdGet, List.find?_cons, hb] at ih ⊢
        exact ih
      · simp [tdGet, List.find?_cons, hb]

/-- Computing `tdGet` over `trendPass2`. -/
theorem tdGet_trendPass2 (td : TrendData) (k : String) :
    tdGet (trendPass2 td) k
      = (tdGet td k).map (fun e =>
          TrendEntry.mk e.totalPrice e.count (e.totalPrice / (e.count : ℚ)) 0) :=
  tdGet_map (fun e => TrendEntry.mk e.totalPrice e.count (e.totalPrice / (e.count : ℚ)) 0) k td

/-- The listing prices grouped under `k` after one more listing row. -/
theorem pricesOf_concat (done : List Product) (p : Product) (k : String) :
    pricesOf (done ++ [p]) k
      = pricesOf done k ++ (if (p.name == k) = true then [p.price] else []) := by
  unfold pricesOf
  rw [List.filter_append, List.map_append]
  congr 1
  rcases hb : (p.name == k) with _ | _ <;> simp [List.filter_cons, hb]

/-- One step of the first `products.forEach` pass preserves the
grouped-sums characterisation. -/
theorem trendStep1_spec (td : TrendData) (done : List Product) (p : Product)
    (h : ∀ k, tdGet td k = pass1Entry done k) :
    ∀ k, tdGet (trendStep1 td p) k = pass1Entry (done ++ [p]) k := by
  intro k
  have hup := tdGet_updateFirstVal
    (fun e => TrendEntry.mk (e.totalPrice + p.price) (e.count + 1) e.avgPrice e.totalSalesQty)
    p.name k
  unfold trendStep1
  by_cases hsome : (tdGet td p.name).isSome = true
  · rw [if_pos hsome]
    refine (hup td).trans ?_
    have hne : pricesOf done p.name ≠ [] := by
      intro hnil
      rw [h p.name] at hsome
      unfold pass1Entry at hsome
      rw [if_pos hnil] at hsome
      exact (nomatch hsome)
    by_cases hk : k = p.name
    · subst hk
      rw [if_pos rfl, h p.name]
      unfold pass1Entry
      rw [pricesOf_concat]
      simp [hne, List.sum_append]
    · rw [if_neg hk, h k]
      unfold pass1Entry
      rw [pricesOf_concat]
      have hb : (p.name == k) = false := beq_eq_false_iff_ne.mpr (fun hh => hk hh.symm)
      rw [hb]
      simp
  · rw [if_neg hsome]
    refine (hup (td ++ [(p.name, TrendEntry.mk 0 0 0 0)])).trans ?_
    have hnone : tdGet td p.name = none := by
      cases hcase : tdGet td p.name
      · rfl
      · rw [hcase] at hsome
        exact absurd rfl hsome
    have hnil : pricesOf done p.name = [] := by
      have hpn := h p.name
      rw [hnone] at hpn
      unfold pass1Entry at hpn
      by_cases hn : pricesOf done p.name = []
      · exact hn
      · rw [if_neg hn] at hpn
        exact (nomatch hpn)
    by_cases hk : k = p.name
    · subst hk
      rw [if_pos rfl, tdGet_append, hnone]
      unfold pass1Entry
      rw [pricesOf_concat, hnil]
      simp
    · rw [if_neg hk, tdGet_append]
      have hbf : (p.name == k) = false := beq_eq_false_iff_ne.mpr (fun hh => hk hh.symm)
      rw [h k]
      unfold pass1Entry
      rw [pricesOf_concat, hbf]
      simp only [Bool.false_eq_true, if_false, List.append_nil]
      by_cases hnilk : pricesOf done k = []
      · simp [hnilk, hk]
      · simp [hnilk]

/-- Folding the first pass over a product suffix extends the
characterisation. -/
theorem pass1_fold (ps : List Product) :
    ∀ (done : List Product) (td : TrendData),
      (∀ k, tdGet td k = pass1Entry done k) →
      ∀ k, tdGet (ps.foldl trendStep1 td) k = pass1Entry (done ++ ps) k := by
  induction ps with
  | nil =>
      intro done td h k
      simpa using h k
  | cons p ps ih =>
      intro done td h k
      rw [List.foldl_cons]
      have h2 := trendStep1_spec td done p h
      have h3 := ih (done ++ [p]) (trendStep1 td p) h2 k
      rwa [List.append_assoc, List.singleton_append] at h3

/-- The first pass of `GET /market-trends` computes, for every name,
the sum and the count of the unit prices of the listing rows so named. -/
theorem pass1_spec (products : List Product) (k : String) :
    tdGet (products.foldl trendStep1 []) k = pass1Entry products k := by
  have h0 : ∀ k2, tdGet ([] : TrendData) k2 = pass1Entry ([] : List Product) k2 := by
    intro k2
    simp [tdGet, pass1Entry, pricesOf]
  simpa using pass1_fold products [] [] h0 k

/-- One step of the `orders.forEach` pass adds the order's quantity to
the entry of the name its product joins to, when that entry exists. -/
theorem trendStep3_tdGet (s : ServerState) (td : TrendData) (o : Order) (k : String) :
    tdGet (trendStep3 s td o) k
      = (tdGet td k).map (fun e => TrendEntry.mk e.totalPrice e.count e.avgPrice
          (e.totalSalesQty + (if orderJoinsName s o k = true then o.qty else 0))) := by
  unfold trendStep3
  split
  · rename_i hfind
    have hj : orderJoinsName s o k = false := by
      unfold orderJoinsName
      rw [hfind]
    rw [hj]
    cases h : tdGet td k <;> simp
  · rename_i product hfind
    have hj : orderJoinsName s o k = (product.name == k) := by
      unfold orderJoinsName
      rw [hfind]
    rw [hj]
    have hup := tdGet_updateFirstVal
      (fun e => TrendEntry.mk e.totalPrice e.count e.avgPrice (e.totalSalesQty + o.qty))
      product.name k td
    by_cases hsome : (tdGet td product.name).isSome = true
    · rw [if_pos hsome]
      refine hup.trans ?_
      by_cases hk : k = product.name
      · subst hk
        rw [if_pos rfl]
        cases h : tdGet td product.name <;> simp [h]
      · rw [if_neg hk]
        have hb : (product.name == k) = false := beq_eq_false_iff_ne.mpr (fun hh => hk hh.symm)
        rw [hb]
        cases h : tdGet td k <;> simp [h]
    · rw [if_neg hsome]
      have hnone : tdGet td product.name = none := by
        cases hcase : tdGet td product.name
        · rfl
        · rw [hcase] at hsome
          exact absurd rfl hsome
      by_cases hk : k = product.name
      · subst hk
        simp [hnone]
      · have hb : (product.name == k) = false := beq_eq_false_iff_ne.mpr (fun hh => hk hh.symm)
        rw [hb]
        cases h : tdGet td k <;> simp

/-- Folding the `orders.forEach` pass adds, to every present entry, the
total quantity of the processed orders joining to that name. -/
theorem pass3_fold (s : ServerState) :
    ∀ (os : List Order) (td : TrendData) (k : String),
      tdGet (os.foldl (trendStep3 s) td) k
        = (tdGet td k).map (fun e => TrendEntry.mk e.totalPrice e.count e.avgPrice
            (e.totalSalesQty + orderedQtyAmong s os k)) := by
  intro os
  induction os with
  | nil =>
      intro td k
      cases h : tdGet td k <;> simp [orderedQtyAmong, h]
  | cons o os ih =>
      intro td k
      rw [List.foldl_cons, ih (trendStep3 s td o) k, trendStep3_tdGet]
      have hcons : orderedQtyAmong s (o :: os) k
          = (if orderJoinsName s o k = true then o.qty else 0) + orderedQtyAmong s os k := by
        unfold orderedQtyAmong
        rw [List.filter_cons]
        rcases hb : orderJoinsName s o k with _ | _ <;> simp [hb]
      rw [hcons]
      cases h : tdGet td k <;> simp [add_assoc]

/-- Claim C8: `computeTrends` maps every listing name carried in its
result to the arithmetic mean of `unitPrice` over all listing rows
sharing that name (per row, not per distinct product) together with the
sum of the order quantities joining to that name; in particular, with
two listings named "Tomato" priced 2 and 4 and orders of quantity 3 and
5 against them, the "Tomato" entry has average price 3 and total
ordered quantity 8. -/
theorem computeTrends_spec :
    (∀ (s : ServerState) (name : String) (t : TrendEntry),
        tdGet (computeTrends s) name = some t →
        t.avgPrice = (pricesOf s.products name).sum / ((pricesOf s.products name).length : ℚ)
        ∧ t.totalSalesQty = orderedQtyAmong s s.orders name)
    ∧ tdGet (computeTrends stTom) "Tomato" = some (TrendEntry.mk 6 2 3 8) := by
  constructor
  · intro s name t ht
    unfold computeTrends at ht
    rw [pass3_fold, tdGet_trendPass2, pass1_spec] at ht
    unfold pass1Entry at ht
    by_cases hnil : pricesOf s.products name = []
    · rw [if_pos hnil] at ht
      simp at ht
    · rw [if_neg hnil] at ht
      have ht2 : TrendEntry.mk (pricesOf s.products name).sum (pricesOf s.products name).length
          ((pricesOf s.products name).sum / ((pricesOf s.products name).length : ℚ))
          (orderedQtyAmong s s.orders name) = t := by
        simpa using ht
      rw [← ht2]
      exact ⟨rfl, rfl⟩
  · have h1 : tdGet (stTom.products.foldl trendStep1 []) "Tomato"
        = some (TrendEntry.mk 6 2 0 0) := by
      rw [pass1_spec]
      unfold pass1Entry
      rw [if_neg (by decide)]
      norm_num [pricesOf, stTom, prodTom1, prodTom2, List.filter_cons]
    have h2 : tdGet (trendPass2 (stTom.products.foldl trendStep1 [])) "Tomato"
        = some (TrendEntry.mk 6 2 3 0) := by
      rw [tdGet_trendPass2, h1]
      norm_num
    have hj1 : orderJoinsName stTom ordTom1 "Tomato" = true := by decide
    have hj2 : orderJoinsName stTom ordTom2 "Tomato" = true := by decide
    have ho : stTom.orders = [ordTom1, ordTom2] := rfl
    have hq1 : ordTom1.qty = 3 := rfl
    have hq2 : ordTom2.qty = 5 := rfl
    have h3 : orderedQtyAmong stTom stTom.orders "Tomato" = 8 := by
      norm_num [orderedQtyAmong, ho, List.filter_cons, hj1, hj2, hq1, hq2]
    show tdGet (stTom.orders.foldl (trendStep3 stTom)
      (trendPass2 (stTom.products.foldl trendStep1 []))) "Tomato"
        = some (TrendEntry.mk 6 2 3 8)
    rw [pass3_fold, h2, h3]
    norm_num

/-- Witness for C8: the "Tomato" entry of the example state satisfies
the grouped average-price and total-quantity characterisation. -/
theorem computeTrends_spec_witness :
    (TrendEntry.mk (6:ℚ) 2 3 8).avgPrice
        = (pricesOf stTom.products "Tomato").sum
            / ((pricesOf stTom.products "Tomato").length : ℚ)
    ∧ (TrendEntry.mk (6:ℚ) 2 3 8).totalSalesQty
        = orderedQtyAmong stTom stTom.orders "Tomato" :=
  computeTrends_spec.1 stTom "Tomato" (TrendEntry.mk 6 2 3 8) computeTrends_spec.2
